import Mathlib

/-!
Shallow embedding of the statement-execution engine of pymake
(src/pymake/parserdata.py): locations, variables, expansions, patterns,
rules, statements and their execution over a build-model state.
External collaborators (data.py, parser.py, globrelative.py) are not part
of the source tree; the definitions standing in for them are marked
"Modelled from the spec:" and follow the specification text.
-/

set_option maxHeartbeats 1000000

/-- Tab character, kept as a named constant. -/
def tabchar : Char := Char.ofNat 9

/-- Single-quote character, used to build error-message strings. -/
def squote : String := String.singleton (Char.ofNat 39)

/-- Tab width used by column arithmetic (source: _tabwidth = 4). -/
def _tabwidth : Nat := 4

/-- Column position after processing a perhaps-tab character
(source: _charlocation, used with reduce). -/
def _charlocation (start : Nat) (c : Char) : Nat :=
  if c ≠ tabchar then start + 1
  else start + _tabwidth - start % _tabwidth

/-- A location within a makefile: path, line and column (source: Location). -/
structure Location where
  path : String
  line : Nat
  column : Nat
deriving DecidableEq, Repr

/-- Returns a new location on the same line offset by the specified string
(source: Location.__add__, a reduce of _charlocation over the characters). -/
def Location.add (loc : Location) (s : String) : Location :=
  let newcol := s.data.foldl _charlocation loc.column
  if newcol = loc.column then loc
  else ⟨loc.path, loc.line, newcol⟩

/-- Rendering of a location as path:line:column (source: Location.__str__). -/
def Location.tostr (loc : Location) : String :=
  loc.path ++ ":" ++ toString loc.line ++ ":" ++ toString loc.column

/-- Modelled from the spec: variable flavors of the external variable model
(data.Variables.FLAVOR_RECURSIVE / FLAVOR_SIMPLE). -/
inductive VarFlavor where
  | recursive
  | simple
deriving DecidableEq, Repr

/-- Modelled from the spec: the four provenance/precedence markers on a
variable binding (data.Variables.SOURCE_*). -/
inductive VarSource where
  | override
  | commandline
  | makefile
  | environment
deriving DecidableEq, Repr

/-- Modelled from the spec: precedence rank of a source; a smaller rank is
stronger (explicit override directives out-rank command-line bindings,
which out-rank plain makefile assignments, which out-rank the environment). -/
def VarSource.rank : VarSource → Nat
  | .override => 0
  | .commandline => 1
  | .makefile => 2
  | .environment => 3

/-- Modelled from the spec: one stored variable binding with flavor and
provenance tracking. -/
structure VarEntry where
  flavor : VarFlavor
  source : VarSource
  value : String
deriving DecidableEq, Repr

/-- Modelled from the spec: a variable scope is a collection of bindings. -/
abbrev Variables := List (String × VarEntry)

/-- First-match association lookup over a keyed list. -/
def assoc {α : Type} (l : List (String × α)) (k : String) : Option α :=
  match l with
  | [] => none
  | (k2, v) :: rest => if k2 = k then some v else assoc rest k

/-- Modelled from the spec: Variables.get with expand=False, returning the
stored entry without forcing resolution (absent variable gives none). -/
def vget (v : Variables) (n : String) : Option VarEntry := assoc v n

/-- Modelled from the spec: Variables.set; a weaker source never overwrites
a stronger existing binding, otherwise the binding is replaced (or created). -/
def vset (v : Variables) (n : String) (f : VarFlavor) (s : VarSource) (val : String) : Variables :=
  match vget v n with
  | none => v ++ [(n, ⟨f, s, val⟩)]
  | some old =>
    if old.source.rank < s.rank then v
    else v.map (fun p => if p.1 = n then (n, ⟨f, s, val⟩) else p)

/-- Modelled from the spec: Variables.append; append semantics are owned by
the variable-scope collaborator, modelled here as space-concatenation onto
an existing binding (keeping its flavor and source) or creation of a fresh
recursive binding. -/
def vappend (v : Variables) (n : String) (s : VarSource) (val : String)
    (_globals : Variables) : Variables :=
  match vget v n with
  | none => v ++ [(n, ⟨VarFlavor.recursive, s, val⟩)]
  | some old =>
    v.map (fun p => if p.1 = n then (n, ⟨old.flavor, old.source, old.value ++ " " ++ val⟩) else p)

/-- Modelled from the spec: one element of a parsed value template, either
literal text or a reference to a named variable. -/
inductive ExpElem where
  | lit (s : String)
  | varref (n : String)
deriving DecidableEq, Repr

/-- Modelled from the spec: scanner mode of the value-template parser,
either plain text, just after a dollar sign, or inside a dollar-paren
variable reference accumulating the name. -/
inductive PMode where
  | plain
  | dollar
  | invar (name : List Char)
deriving DecidableEq, Repr

/-- Modelled from the spec: scanner state of the value-template parser. -/
structure PState where
  out : List ExpElem
  mode : PMode
deriving DecidableEq, Repr

/-- Modelled from the spec: one step of the value-template scanner; a
dollar-paren group becomes a variable reference, everything else becomes
literal elements. -/
def parsestep (st : PState) (c : Char) : PState :=
  match st.mode with
  | PMode.plain =>
    if c = '$' then ⟨st.out, PMode.dollar⟩
    else ⟨st.out ++ [ExpElem.lit (String.mk [c])], PMode.plain⟩
  | PMode.dollar =>
    if c = '(' then ⟨st.out, PMode.invar []⟩
    else ⟨st.out ++ [ExpElem.lit (String.mk ['$', c])], PMode.plain⟩
  | PMode.invar name =>
    if c = ')' then ⟨st.out ++ [ExpElem.varref (String.mk name)], PMode.plain⟩
    else ⟨st.out, PMode.invar (name ++ [c])⟩

/-- Modelled from the spec: the syntax parser entry point turning raw value
text into template elements; an unterminated group degrades to literal
text. -/
def parsevalue (s : String) : List ExpElem :=
  let fin := s.data.foldl parsestep ⟨[], PMode.plain⟩
  match fin.mode with
  | PMode.plain => fin.out
  | PMode.dollar => fin.out ++ [ExpElem.lit "$"]
  | PMode.invar name => fin.out ++ [ExpElem.lit (String.mk ('$' :: '(' :: name))]

/-- Modelled from the spec: resolution of one template element against a
variable scope; a simple-flavor binding contributes its stored text as-is,
a recursive-flavor binding is re-parsed and re-resolved at read time
(fuel bounds the re-resolution depth; an absent variable resolves empty). -/
def resolveelem (vars : Variables) : Nat → ExpElem → String
  | _, ExpElem.lit s => s
  | fuel, ExpElem.varref n =>
    match vget vars n with
    | none => ""
    | some ent =>
      match ent.flavor with
      | VarFlavor.simple => ent.value
      | VarFlavor.recursive =>
        match fuel with
        | 0 => ""
        | f + 1 => String.join ((parsevalue ent.value).map (resolveelem vars f))

/-- Modelled from the spec: resolution of a template element list against a
variable scope. -/
def resolveexp (vars : Variables) (fuel : Nat) (elems : List ExpElem) : String :=
  String.join (elems.map (resolveelem vars fuel))

/-- Default resolution fuel used by the engine. -/
def FUEL : Nat := 100

/-- Modelled from the spec: a parsed, not-yet-resolved value template with
the location it came from (data.Expansion). -/
structure Expansion where
  elems : List ExpElem
  loc : Option Location
deriving DecidableEq, Repr

/-- Modelled from the spec: an expansion holding only the given literal text
(data.Expansion.fromstring). -/
def Expansion.fromstring (s : String) : Expansion := ⟨[ExpElem.lit s], none⟩

/-- Modelled from the spec: resolve an expansion against a variable scope
(data.Expansion.resolve). -/
def Expansion.resolve (e : Expansion) (vars : Variables) : String :=
  resolveexp vars FUEL e.elems

/-- Modelled from the spec: parse and resolve a raw value string against a
variable scope. -/
def resolvestr (vars : Variables) (s : String) : String :=
  resolveexp vars FUEL (parsevalue s)

/-- Modelled from the spec: reading one variable by name through the
expansion evaluator with the given fuel. -/
def readvar (fuel : Nat) (vars : Variables) (n : String) : String :=
  resolveexp vars fuel [ExpElem.varref n]

/-- Whether the character list suf is a suffix of cs (helper). -/
def endswithchars (suf cs : List Char) : Bool :=
  suf.reverse.isPrefixOf cs.reverse

/-- Modelled from the spec: a make pattern wraps its raw text (data.Pattern);
the wildcard marker is the percent character. -/
structure Pattern where
  s : String
deriving DecidableEq, Repr

/-- Modelled from the spec: a pattern is recognized by the percent wildcard
marker (data.Pattern.ispattern). -/
def Pattern.ispattern (p : Pattern) : Bool := p.s.data.contains '%'

/-- Modelled from the spec: the target name denoted by a non-pattern
(data.Pattern.gettarget). -/
def Pattern.gettarget (p : Pattern) : String := p.s

/-- Modelled from the spec: whether the pattern matches any target, i.e. is
exactly the bare wildcard (data.Pattern.ismatchany). -/
def Pattern.ismatchany (p : Pattern) : Bool := p.s = "%"

/-- Modelled from the spec: stem extraction; the target must carry the text
before the first wildcard as a prefix and the text after it as a suffix,
and the stem is the middle; a wildcard-free pattern matches only itself
with an empty stem (data.Pattern.match). -/
def Pattern.matchstem (p : Pattern) (t : String) : Option String :=
  let pc := p.s.data
  if pc.contains '%' then
    let before := pc.takeWhile (fun c => c ≠ '%')
    let after := (pc.dropWhile (fun c => c ≠ '%')).drop 1
    let tc := t.data
    if before.length + after.length ≤ tc.length
        && before.isPrefixOf tc && endswithchars after tc
    then some (String.mk ((tc.drop before.length).take (tc.length - before.length - after.length)))
    else none
  else if t = p.s then some "" else none

/-- Modelled from the spec: rendering of a pattern is its raw text
(data.Pattern.__str__). -/
def Pattern.tostr (p : Pattern) : String := p.s

/-- Modelled from the spec: scanner state for whitespace word splitting. -/
structure WState where
  out : List String
  cur : List Char
deriving DecidableEq, Repr

/-- Modelled from the spec: one step of whitespace word splitting. -/
def wordsstep (st : WState) (c : Char) : WState :=
  if c.isWhitespace then
    match st.cur with
    | [] => ⟨st.out, []⟩
    | _ => ⟨st.out ++ [String.mk st.cur], []⟩
  else ⟨st.out, st.cur ++ [c]⟩

/-- Modelled from the spec: data.splitwords, splitting a string into its
whitespace-separated words. -/
def splitwords (s : String) : List String :=
  let fin := s.data.foldl wordsstep ⟨[], []⟩
  match fin.cur with
  | [] => fin.out
  | _ => fin.out ++ [String.mk fin.cur]

/-- Modelled from the spec: pymake.globrelative.hasglob, whether a word
contains glob syntax. -/
def hasglob (s : String) : Bool :=
  s.data.any (fun c => c = '*' || c = '?' || c = '[')

/-- Python str.strip: drop leading and trailing whitespace. -/
def strip (s : String) : String :=
  String.mk (((s.data.dropWhile Char.isWhitespace).reverse.dropWhile Char.isWhitespace).reverse)

/-- Split a string at the first occurrence of a separator, as a character
scan, returning the parts before and after it when found. -/
def partitionchars (cs sep : List Char) : Option (List Char × List Char) :=
  match cs with
  | [] => none
  | c :: rest =>
    if sep.isPrefixOf (c :: rest) then some ([], (c :: rest).drop sep.length)
    else
      match partitionchars rest sep with
      | some (bef, aft) => some (c :: bef, aft)
      | none => none

/-- Python str.partition: split at the first occurrence of the separator,
giving (head, separator, tail), or (s, empty, empty) when absent. -/
def partition (s sep : String) : String × String × String :=
  match partitionchars s.data sep.data with
  | some (bef, aft) => (String.mk bef, sep, String.mk aft)
  | none => (s, "", "")


/-- Modelled from the spec: payload of an explicit rule (data.Rule):
prerequisites, double-colon flag, location, and the recipe commands
appended later. -/
structure NormalRuleData where
  deps : List String
  doublecolon : Bool
  loc : Option Location
  commands : List Expansion
deriving DecidableEq, Repr

/-- Modelled from the spec: payload of a pattern rule (data.PatternRule):
target patterns, prerequisite patterns, double-colon flag, location, and
the recipe commands appended later. -/
structure PatternRuleData where
  targets : List Pattern
  deps : List Pattern
  doublecolon : Bool
  loc : Option Location
  commands : List Expansion
deriving DecidableEq, Repr

/-- A rule value held in the model rule store; indices into the store model
the sharing of one rule object between target entries and the execution
context. -/
inductive StoredRule where
  | normal (r : NormalRuleData)
  | patt (r : PatternRuleData)
deriving DecidableEq, Repr

/-- Append a recipe command to a stored rule (data.Rule.addcommand /
data.PatternRule.addcommand). -/
def StoredRule.addcommand : StoredRule → Expansion → StoredRule
  | StoredRule.normal r, e => StoredRule.normal {r with commands := r.commands ++ [e]}
  | StoredRule.patt r, e => StoredRule.patt {r with commands := r.commands ++ [e]}

/-- A rule attached to a target table entry: either a shared stored rule or
a pattern-rule instance (data.PatternRuleInstance: shared rule, empty
variable-set placeholder, extracted stem, matches-any flag). -/
inductive TargetRule where
  | stored (i : Nat)
  | inst (ruleid : Nat) (vars : String) (stem : String) (matchany : Bool)
deriving DecidableEq, Repr

/-- Modelled from the spec: a target table entry with its attached rules and
its target-keyed variable scope (data.Target). -/
structure TargetEntry where
  rules : List TargetRule
  vars : Variables
deriving DecidableEq, Repr

/-- Modelled from the spec: the build model mutated by statement execution
(data.Makefile): global variables, the rule store, the target table, the
implicit-rule sequence, the first discovered goal, recorded command-line
overrides, the exported-name set, pattern-keyed variable scopes, search
paths, recorded include requests, and the external glob collaborator. -/
structure Makefile where
  vars : Variables
  rulestore : List StoredRule
  targets : List (String × TargetEntry)
  implicitrules : List Nat
  firstgoal : Option String
  overrides : List String
  exportedvars : List String
  patternvariables : List (String × Variables)
  vpaths : List (String × List String)
  includes : List (String × Bool × Option Location)
  globfn : String → List String

/-- The current rule carried by the execution context: the no-op sink
(source: DummyRule, whose addcommand discards) or a stored rule. -/
inductive CurRule where
  | DummyRule
  | stored (i : Nat)
deriving DecidableEq, Repr

/-- The execution context: a single mutable currule slot (source: the
object util.makeobject builds for StatementList.execute; a fresh context
has no current rule). -/
structure ExecContext where
  currule : Option CurRule
deriving DecidableEq, Repr

/-- Errors surfaced by statement execution: user-facing definition errors
(data.DataError), parse-time syntax errors (parser.SyntaxError), and
internal assertion failures. -/
inductive MakeError where
  | DataError (msg : String) (loc : Option Location)
  | SyntaxError (msg : String) (loc : Location)
  | AssertionError (msg : String)
deriving DecidableEq, Repr

/-- Replace the element at one index of a list by applying a function. -/
def modifyat {α : Type} (l : List α) (i : Nat) (f : α → α) : List α :=
  match l, i with
  | [], _ => []
  | x :: rest, 0 => f x :: rest
  | x :: rest, i + 1 => x :: modifyat rest i f

/-- Attach a command expansion through the current rule: the no-op sink
discards it, a stored rule gets it appended in the rule store. -/
def addcommandcur : CurRule → Expansion → Makefile → Makefile
  | CurRule.DummyRule, _, m => m
  | CurRule.stored i, e, m =>
    {m with rulestore := modifyat m.rulestore i (fun r => r.addcommand e)}

/-- Look up a target table entry by name. -/
def lookuptarget (m : Makefile) (n : String) : Option TargetEntry := assoc m.targets n

/-- Modelled from the spec: makefile.gettarget(n).addrule(tr); the target
entry is created on demand and the rule is appended to its rule list. -/
def addruletotarget (m : Makefile) (n : String) (tr : TargetRule) : Makefile :=
  match lookuptarget m n with
  | some _ =>
    {m with targets := (m.targets.map
      (fun p => if p.1 = n then (p.1, (⟨p.2.rules ++ [tr], p.2.vars⟩ : TargetEntry)) else p))}
  | none => {m with targets := m.targets ++ [(n, ⟨[tr], []⟩)]}

/-- Modelled from the spec: makefile.foundtarget records the first target as
a discovered build goal if none has been recorded yet. -/
def foundtarget (m : Makefile) (n : String) : Makefile :=
  match m.firstgoal with
  | none => {m with firstgoal := some n}
  | some _ => m

/-- Wildcard expansion of a word list: words with glob syntax are replaced
by the matches the external glob collaborator yields, other words pass
through unchanged (source: _expandwildcards). -/
def expandwildcards (m : Makefile) (tlist : List String) : List String :=
  tlist.flatMap (fun t => if hasglob t then m.globfn t else [t])

/-- The condition variants of a conditional block: equality test, perhaps
negated (source: EqCondition), definedness test, perhaps negated (source:
IfdefCondition), and the always-true else (source: ElseCondition). -/
inductive Condition where
  | EqCondition (expected : Bool) (exp1 exp2 : Expansion)
  | IfdefCondition (expected : Bool) (exp : Expansion)
  | ElseCondition
deriving DecidableEq, Repr

/-- Evaluate a condition against the model (source: the evaluate methods of
EqCondition, IfdefCondition and ElseCondition). -/
def Condition.evaluate (c : Condition) (m : Makefile) : Bool :=
  match c with
  | Condition.EqCondition expected e1 e2 =>
    ((e1.resolve m.vars == e2.resolve m.vars) == expected)
  | Condition.IfdefCondition expected e =>
    let vname := e.resolve m.vars
    match vget m.vars vname with
    | none => !expected
    | some ent => (decide (0 < ent.value.length) == expected)
  | Condition.ElseCondition => true

/-- The statement variants (source: the Statement subclasses of
parserdata.py); a ConditionBlock holds its clauses as pairs of a condition
and that clause's statement list. -/
inductive Statement where
  | Override (s : String)
  | Rule (targetexp depexp : Expansion) (doublecolon : Bool)
  | StaticPatternRule (targetexp patternexp depexp : Expansion) (doublecolon : Bool)
  | Command (exp : Expansion)
  | SetVariable (vnameexp : Expansion) (token : String) (value : String)
      (valueloc : Option Location) (targetexp : Option Expansion) (source : VarSource)
  | ConditionBlock (loc : Location) (groups : List (Condition × List Statement))
  | Include (exp : Expansion) (required : Bool)
  | VPathDirective (exp : Expansion)
  | ExportDirective (exp : Expansion)  (single : Bool)
  | EmptyDirective (exp : Expansion)

/-- Add a clause to a condition block (source: ConditionBlock.addcondition);
a clause after an else clause is a syntax error, raised before any
execution, otherwise the clause is appended with an empty statement list. -/
def condblockaddcondition (blockloc : Location) (groups : List (Condition × List Statement))
    (loc : Location) (c : Condition) : Except MakeError (List (Condition × List Statement)) :=
  match groups.getLast? with
  | some g =>
    match g.1 with
    | Condition.ElseCondition =>
      Except.error (MakeError.SyntaxError
        ("Multiple else conditions for block starting at " ++ Location.tostr blockloc) loc)
    | _ => Except.ok (groups ++ [(c, [])])
  | none => Except.ok (groups ++ [(c, [])])

/-- Execute a Rule statement (source: Rule.execute): resolve and
wildcard-expand the targets; an empty list installs the no-op sink; mixed
pattern and explicit targets fail; all-pattern targets register one
pattern rule in the implicit-rule sequence; explicit targets attach one
shared rule to every named target and record the first as a goal; the
context current rule becomes the new rule. -/
def execrulestmt (m : Makefile) (ctx : ExecContext) (targetexp depexp : Expansion)
    (dc : Bool) : Except MakeError (Makefile × ExecContext) :=
  let atargets := splitwords (targetexp.resolve m.vars)
  let targets := (expandwildcards m atargets).map Pattern.mk
  match targets with
  | [] => Except.ok (m, {ctx with currule := some CurRule.DummyRule})
  | t0 :: _ =>
    if targets.any (fun t => t.ispattern) && targets.any (fun t => !t.ispattern) then
      Except.error (MakeError.DataError "Mixed implicit and normal rule" targetexp.loc)
    else
      let deps := expandwildcards m (splitwords (depexp.resolve m.vars))
      let i := m.rulestore.length
      if t0.ispattern then
        let rule : PatternRuleData := ⟨targets, deps.map Pattern.mk, dc, targetexp.loc, []⟩
        Except.ok ({m with rulestore := m.rulestore ++ [StoredRule.patt rule],
                           implicitrules := m.implicitrules ++ [i]},
                   {ctx with currule := some (CurRule.stored i)})
      else
        let rule : NormalRuleData := ⟨deps, dc, targetexp.loc, []⟩
        let m1 := {m with rulestore := m.rulestore ++ [StoredRule.normal rule]}
        let m2 := targets.foldl
          (fun acc t => addruletotarget acc t.gettarget (TargetRule.stored i)) m1
        Except.ok (foundtarget m2 t0.gettarget, {ctx with currule := some (CurRule.stored i)})

/-- The per-target loop of StaticPatternRule.execute: each target must not
itself be a pattern and must match the declared pattern; the extracted
stem is attached as a pattern-rule instance on that target. -/
def attachspr (m : Makefile) (prloc : Option Location) (i : Nat) (pat : Pattern) :
    List String → Except MakeError Makefile
  | [] => Except.ok m
  | t :: rest =>
    if (Pattern.mk t).ispattern then
      Except.error (MakeError.DataError
        ("Target " ++ squote ++ t ++ squote ++ " of a static pattern rule must not be a pattern")
        prloc)
    else
      match pat.matchstem t with
      | none =>
        Except.error (MakeError.DataError
          ("Target " ++ squote ++ t ++ squote ++ " does not match the static pattern "
            ++ squote ++ pat.tostr ++ squote) prloc)
      | some stem =>
        attachspr (addruletotarget m t (TargetRule.inst i "" stem pat.ismatchany)) prloc i pat rest

/-- Execute a StaticPatternRule statement (source:
StaticPatternRule.execute): resolve and wildcard-expand the targets (empty
installs the no-op sink); the pattern expansion must resolve to one word;
one shared pattern rule is built and instantiated per explicit target; the
first target is recorded as a goal and the context current rule becomes
the shared rule. -/
def execstaticpattern (m : Makefile) (ctx : ExecContext)
    (targetexp patternexp depexp : Expansion) (dc : Bool) :
    Except MakeError (Makefile × ExecContext) :=
  let targets := expandwildcards m (splitwords (targetexp.resolve m.vars))
  match targets with
  | [] => Except.ok (m, {ctx with currule := some CurRule.DummyRule})
  | t0 :: _ =>
    match splitwords (patternexp.resolve m.vars) with
    | [p] =>
      let pattern := Pattern.mk p
      let deps := (expandwildcards m (splitwords (depexp.resolve m.vars))).map Pattern.mk
      let i := m.rulestore.length
      let rule : PatternRuleData := ⟨[pattern], deps, dc, targetexp.loc, []⟩
      let m1 := {m with rulestore := m.rulestore ++ [StoredRule.patt rule]}
      match attachspr m1 targetexp.loc i pattern targets with
      | Except.error err => Except.error err
      | Except.ok m2 =>
        Except.ok (foundtarget m2 t0, {ctx with currule := some (CurRule.stored i)})
    | _ =>
      Except.error (MakeError.DataError "Static pattern rules must have a single pattern"
        patternexp.loc)

/-- A reference to one variable scope the assignment mutates: the global
scope, a target-keyed scope, or a pattern-keyed scope. -/
inductive ScopeRef where
  | globalscope
  | targetscope (n : String)
  | patternscope (p : String)
deriving DecidableEq, Repr

/-- Create a target table entry on demand (makefile.gettarget as used for
its side effect when collecting assignment scopes). -/
def ensuretarget (m : Makefile) (n : String) : Makefile :=
  match lookuptarget m n with
  | some _ => m
  | none => {m with targets := m.targets ++ [(n, ⟨[], []⟩)]}

/-- Modelled from the spec: makefile.getpatternvariables creates a
pattern-keyed scope on demand. -/
def ensurepatternvars (m : Makefile) (p : String) : Makefile :=
  match assoc m.patternvariables p with
  | some _ => m
  | none => {m with patternvariables := m.patternvariables ++ [(p, [])]}

/-- Create the scope a reference names, on demand. -/
def ensurescope (m : Makefile) (sc : ScopeRef) : Makefile :=
  match sc with
  | ScopeRef.globalscope => m
  | ScopeRef.targetscope n => ensuretarget m n
  | ScopeRef.patternscope p => ensurepatternvars m p

/-- Read the variable scope a reference names. -/
def getscope (m : Makefile) : ScopeRef → Variables
  | ScopeRef.globalscope => m.vars
  | ScopeRef.targetscope n =>
    match lookuptarget m n with
    | some e => e.vars
    | none => []
  | ScopeRef.patternscope p =>
    match assoc m.patternvariables p with
    | some v => v
    | none => []

/-- Write back the variable scope a reference names. -/
def setscope (m : Makefile) (sc : ScopeRef) (v : Variables) : Makefile :=
  match sc with
  | ScopeRef.globalscope => {m with vars := v}
  | ScopeRef.targetscope n =>
    {m with targets := (m.targets.map
      (fun p => if p.1 = n then (p.1, {p.2 with vars := v}) else p))}
  | ScopeRef.patternscope pk =>
    {m with patternvariables := (m.patternvariables.map
      (fun p => if p.1 = pk then (p.1, v) else p))}

/-- The operator dispatch of SetVariable.execute on one scope: append
delegates to the scope, default skips an existing binding and otherwise
stores recursively, recursive stores the raw text, simple parses and
resolves the raw text against the current global scope and stores the
plain string; any other token is an internal contract violation. -/
def applysetop (vname token value : String) (source : VarSource) (m : Makefile)
    (sc : ScopeRef) : Except MakeError Makefile :=
  let v := getscope m sc
  if token = "+=" then
    Except.ok (setscope m sc (vappend v vname source value m.vars))
  else if token = "?=" then
    match vget v vname with
    | some _ => Except.ok m
    | none => Except.ok (setscope m sc (vset v vname VarFlavor.recursive source value))
  else if token = "=" then
    Except.ok (setscope m sc (vset v vname VarFlavor.recursive source value))
  else if token = ":=" then
    Except.ok (setscope m sc (vset v vname VarFlavor.simple source (resolvestr m.vars value)))
  else Except.error (MakeError.AssertionError "unexpected variable assignment token")

/-- Execute a SetVariable statement (source: SetVariable.execute): an empty
resolved name fails; without a target expansion the global scope is
mutated, otherwise each resolved target word selects (creating on demand)
a pattern-keyed or target-keyed scope; every selected scope receives the
operator dispatch. -/
def execsetvariable (m : Makefile) (vnameexp : Expansion) (token value : String)
    (_valueloc : Option Location) (targetexp : Option Expansion) (source : VarSource) :
    Except MakeError Makefile :=
  let vname := vnameexp.resolve m.vars
  if vname.length = 0 then Except.error (MakeError.DataError "Empty variable name" vnameexp.loc)
  else
    let scopes :=
      match targetexp with
      | none => [ScopeRef.globalscope]
      | some te =>
        ((splitwords (te.resolve m.vars)).map Pattern.mk).map
          (fun (t : Pattern) => if t.ispattern then ScopeRef.patternscope t.s
                    else ScopeRef.targetscope t.gettarget)
    let m1 := scopes.foldl ensurescope m
    scopes.foldlM (fun acc sc => applysetop vname token value source acc sc) m1

/-- Split a string on every occurrence of a character (python str.split with
an explicit separator, keeping empty parts). -/
def splitonchar (s : String) (sep : Char) : List String :=
  let fin := s.data.foldl
    (fun (st : List String × List Char) c =>
      if c = sep then (st.1 ++ [String.mk st.2], []) else (st.1, st.2 ++ [c]))
    ([], [])
  fin.1 ++ [String.mk fin.2]

/-- Execute a VPathDirective statement (source: VPathDirective.execute):
zero words clears all search paths, one word clears that pattern, more
words flatten the colon-separated directory lists and register them for
the pattern when any remain. -/
def execvpath (m : Makefile) (exp : Expansion) : Makefile :=
  let words := splitwords (exp.resolve m.vars)
  match words with
  | [] => {m with vpaths := []}
  | w :: mpaths =>
    let pattern := Pattern.mk w
    match mpaths with
    | [] => {m with vpaths := m.vpaths.filter (fun p => p.1 ≠ pattern.s)}
    | _ =>
      let dirs := mpaths.foldl
        (fun acc mp => acc ++ ((splitonchar mp ':').filter (fun d => d ≠ ""))) []
      if dirs.length ≠ 0 then {m with vpaths := m.vpaths ++ [(pattern.s, dirs)]} else m

/-- Add names to the exported-name set, keeping it duplicate-free. -/
def addexports (m : Makefile) (vs : List String) : Makefile :=
  {m with exportedvars := (vs.foldl
    (fun acc v => if acc.contains v then acc else acc ++ [v]) m.exportedvars)}

/-- Execute an ExportDirective statement (source: ExportDirective.execute):
the single flag exports the unsplit resolved text as one name; otherwise
the resolved text is split and an empty word list fails. -/
def execexport (m : Makefile) (exp : Expansion) (single : Bool) : Except MakeError Makefile :=
  if single then Except.ok (addexports m [exp.resolve m.vars])
  else
    let vlist := splitwords (exp.resolve m.vars)
    if vlist.length = 0 then
      Except.error (MakeError.DataError "Exporting all variables is not supported" exp.loc)
    else Except.ok (addexports m vlist)

/-- Execute an EmptyDirective statement (source: EmptyDirective.execute):
the expansion must resolve to whitespace only. -/
def execempty (m : Makefile) (exp : Expansion) : Except MakeError Makefile :=
  if strip (exp.resolve m.vars) ≠ "" then
    Except.error (MakeError.DataError "Line expands to non-empty value" exp.loc)
  else Except.ok m

mutual

/-- Execute one statement against the model (source: the execute methods of
the Statement subclasses of parserdata.py). -/
def execStmt (stmt : Statement) (m : Makefile) (ctx : ExecContext) :
    Except MakeError (Makefile × ExecContext) :=
  match stmt with
  | Statement.Override s => Except.ok ({m with overrides := m.overrides ++ [s]}, ctx)
  | Statement.Rule te de dc => execrulestmt m ctx te de dc
  | Statement.StaticPatternRule te pe de dc => execstaticpattern m ctx te pe de dc
  | Statement.Command e =>
    match ctx.currule with
    | none => Except.error (MakeError.AssertionError "context.currule is not None")
    | some r => Except.ok (addcommandcur r e m, ctx)
  | Statement.SetVariable vne tok val vloc te src =>
    match execsetvariable m vne tok val vloc te src with
    | Except.error err => Except.error err
    | Except.ok m2 => Except.ok (m2, ctx)
  | Statement.ConditionBlock _ groups => execgroups groups m ctx
  | Statement.Include exp req =>
    let files := splitwords (exp.resolve m.vars)
    Except.ok ({m with includes := m.includes ++ files.map (fun f => (f, req, exp.loc))}, ctx)
  | Statement.VPathDirective exp => Except.ok (execvpath m exp, ctx)
  | Statement.ExportDirective exp single =>
    match execexport m exp single with
    | Except.error err => Except.error err
    | Except.ok m2 => Except.ok (m2, ctx)
  | Statement.EmptyDirective exp =>
    match execempty m exp with
    | Except.error err => Except.error err
    | Except.ok m2 => Except.ok (m2, ctx)

/-- Execute the clauses of a condition block in declaration order, running
the statement list of the first clause whose condition evaluates true
(source: ConditionBlock.execute). -/
def execgroups (groups : List (Condition × List Statement)) (m : Makefile)
    (ctx : ExecContext) : Except MakeError (Makefile × ExecContext) :=
  match groups with
  | [] => Except.ok (m, ctx)
  | (c, stmts) :: rest =>
    if c.evaluate m then execlist stmts m ctx
    else execgroups rest m ctx

/-- Execute a statement list in order, threading the model and the context
and stopping at the first failure (source: StatementList.execute). -/
def execlist (stmts : List Statement) (m : Makefile) (ctx : ExecContext) :
    Except MakeError (Makefile × ExecContext) :=
  match stmts with
  | [] => Except.ok (m, ctx)
  | s :: rest =>
    match execStmt s m ctx with
    | Except.error err => Except.error err
    | Except.ok (m2, ctx2) => execlist rest m2 ctx2

end

/-- Execute a top-level statement list with a fresh context whose current
rule slot is unset (source: StatementList.execute with context omitted). -/
def executestatements (stmts : List Statement) (m : Makefile) :
    Except MakeError (Makefile × ExecContext) :=
  execlist stmts m ⟨none⟩

/-- The indexed loop body of parsecommandlineargs: split each argument on
the simple-assignment separators, emitting an Override and a SetVariable
statement per split argument and collecting the rest as residual words. -/
def pclaaux (i : Nat) (args : List String) : List Statement × List String :=
  match args with
  | [] => ([], [])
  | a :: rest =>
    let q1 := partition a ":="
    let q := if q1.2.1 = "" then partition a "=" else q1
    if q.2.1 ≠ "" then
      let vname := strip q.1
      let s := pclaaux (i + 1) rest
      (Statement.Override a ::
         Statement.SetVariable (Expansion.fromstring vname) q.2.1 q.2.2
           (some ⟨"<command-line>", i, vname.length + q.2.1.length⟩) none
           VarSource.commandline :: s.1,
       s.2)
    else
      let s := pclaaux (i + 1) rest
      (s.1, a :: s.2)

/-- Given the arguments of a command-line invocation, parse out the variable
definitions and return the statements and the residual argument list
(source: parsecommandlineargs). -/
def parsecommandlineargs (args : List String) : List Statement × List String :=
  pclaaux 0 args

/-- A target-table predicate: the model has an entry for the name carrying
the given attached rule. -/
def targethasrule (m : Makefile) (n : String) (tr : TargetRule) : Prop :=
  ∃ e, lookuptarget m n = some e ∧ tr ∈ e.rules

/-- A fresh, empty build model used by concrete examples; its external glob
collaborator yields no matches. -/
def testmakefile : Makefile :=
  { vars := [], rulestore := [], targets := [], implicitrules := [], firstgoal := none,
    overrides := [], exportedvars := [], patternvariables := [], vpaths := [], includes := [],
    globfn := fun _ => [] }

/-- A model whose global scope binds X to the simple-flavor value 1. -/
def xmakefile : Makefile :=
  {testmakefile with vars := [("X", ⟨VarFlavor.simple, VarSource.makefile, "1"⟩)]}

theorem foldl_charlocation_notab (l : List Char) : ∀ col : Nat, (∀ c ∈ l, c ≠ tabchar) →
    l.foldl _charlocation col = col + l.length := by
  induction l with
  | nil => intro col _; simp
  | cons c rest ih =>
    intro col h
    have hc : c ≠ tabchar := h c (List.mem_cons_self c rest)
    have hstep : _charlocation col c = col + 1 := by simp [_charlocation, hc]
    rw [List.foldl_cons, hstep, ih (col + 1) (fun d hd => h d (List.mem_cons_of_mem c hd))]
    simp [List.length_cons]
    omega

/-- C9: advancing a location by tab-free text adds the text length to the
column and keeps the path and the line. -/
theorem c9_location_advance (loc : Location) (s : String)
    (h : ∀ c ∈ s.data, c ≠ tabchar) :
    (loc.add s).column = loc.column + s.length
    ∧ (loc.add s).path = loc.path ∧ (loc.add s).line = loc.line := by
  have hf : s.data.foldl _charlocation loc.column = loc.column + s.data.length :=
    foldl_charlocation_notab s.data loc.column h
  have hlen : s.length = s.data.length := rfl
  unfold Location.add
  rw [hlen, hf]
  by_cases hz : s.data.length = 0
  · rw [hz]
    simp
  · rw [if_neg (by omega)]
    exact ⟨rfl, rfl, rfl⟩

theorem c9_witness :
    ((Location.mk "f" 1 5).add "abc").column = 5 + 3
    ∧ ((Location.mk "f" 1 5).add "abc").path = "f"
    ∧ ((Location.mk "f" 1 5).add "abc").line = 1 := by
  have h := c9_location_advance (Location.mk "f" 1 5) "abc" (by decide)
  simpa using h

/-- C1 counterexample: the claim says a definedness condition evaluates
false whenever the variable is absent for both polarities, but an ifndef
(expected = false) on an entirely absent variable evaluates true. -/
theorem c1_counterexample :
    vget testmakefile.vars ((Expansion.fromstring "X").resolve testmakefile.vars) = none
    ∧ Condition.evaluate (Condition.IfdefCondition false (Expansion.fromstring "X"))
        testmakefile = true :=
  ⟨rfl, rfl⟩

/-- C1 (amended): a definedness condition resolves the name expansion and
looks the variable up without forcing resolution; when the variable is
entirely absent it returns the negation of the expected polarity, and when
present it returns (stored value is non-empty) == expected. -/
theorem c1_ifdef_evaluate (m : Makefile) (expected : Bool) (e : Expansion) :
    (vget m.vars (e.resolve m.vars) = none →
      Condition.evaluate (Condition.IfdefCondition expected e) m = !expected)
    ∧ (∀ ent, vget m.vars (e.resolve m.vars) = some ent →
      Condition.evaluate (Condition.IfdefCondition expected e) m
        = (decide (0 < ent.value.length) == expected)) := by
  constructor
  · intro h
    simp [Condition.evaluate, h]
  · intro ent h
    simp [Condition.evaluate, h]

theorem c1_witness :
    Condition.evaluate (Condition.IfdefCondition true (Expansion.fromstring "X"))
      testmakefile = false
    ∧ Condition.evaluate (Condition.IfdefCondition true (Expansion.fromstring "X"))
        xmakefile = true := by
  constructor
  · have h := (c1_ifdef_evaluate testmakefile true (Expansion.fromstring "X")).1 rfl
    simpa using h
  · have h := (c1_ifdef_evaluate xmakefile true (Expansion.fromstring "X")).2
      ⟨VarFlavor.simple, VarSource.makefile, "1"⟩ rfl
    simpa using h

/-- Clause iteration runs the statement list of the first clause whose
condition holds. -/
theorem execgroups_find (m : Makefile) (ctx : ExecContext) :
    ∀ groups : List (Condition × List Statement),
    execgroups groups m ctx =
      (match groups.find? (fun g => g.1.evaluate m) with
       | some g => execlist g.2 m ctx
       | none => Except.ok (m, ctx)) := by
  intro groups
  induction groups with
  | nil => simp [execgroups]
  | cons g rest ih =>
    obtain ⟨c, stmts⟩ := g
    rw [execgroups]
    by_cases hc : c.evaluate m
    · simp [hc, List.find?_cons_of_pos]
    · rw [if_neg hc, List.find?_cons_of_neg _ (by simpa using hc), ih]

/-- C6: executing a condition block evaluates clause conditions in
declaration order and runs the statement list of exactly the first clause
whose condition evaluates true, running none when no condition is true;
the result never depends on any later clause. -/
theorem c6_conditionblock (loc : Location) (groups : List (Condition × List Statement))
    (m : Makefile) (ctx : ExecContext) :
    execStmt (Statement.ConditionBlock loc groups) m ctx =
      (match groups.find? (fun g => g.1.evaluate m) with
       | some g => execlist g.2 m ctx
       | none => Except.ok (m, ctx)) := by
  have hblock : execStmt (Statement.ConditionBlock loc groups) m ctx
      = execgroups groups m ctx := by
    simp [execStmt]
  rw [hblock, execgroups_find]

/-- C7: adding a clause to a condition block whose last clause is an else
clause fails with a syntax error before any execution and produces no
modified clause list. -/
theorem c7_addcondition (blockloc : Location) (groups : List (Condition × List Statement))
    (loc : Location) (c : Condition) (g : Condition × List Statement)
    (hlast : groups.getLast? = some g) (helse : g.1 = Condition.ElseCondition) :
    condblockaddcondition blockloc groups loc c =
      Except.error (MakeError.SyntaxError
        ("Multiple else conditions for block starting at " ++ Location.tostr blockloc) loc)
    ∧ ∀ gs, condblockaddcondition blockloc groups loc c ≠ Except.ok gs := by
  obtain ⟨c1, sl⟩ := g
  simp only at helse
  subst helse
  have herr : condblockaddcondition blockloc groups loc c =
      Except.error (MakeError.SyntaxError
        ("Multiple else conditions for block starting at " ++ Location.tostr blockloc) loc) := by
    unfold condblockaddcondition
    rw [hlast]
  exact ⟨herr, fun gs hok => by rw [herr] at hok; exact Except.noConfusion hok⟩

theorem c7_witness :
    condblockaddcondition ⟨"f", 1, 0⟩ [(Condition.ElseCondition, [])] ⟨"f", 2, 0⟩
        Condition.ElseCondition
      = Except.error (MakeError.SyntaxError
          ("Multiple else conditions for block starting at " ++ Location.tostr ⟨"f", 1, 0⟩)
          ⟨"f", 2, 0⟩) :=
  (c7_addcondition ⟨"f", 1, 0⟩ [(Condition.ElseCondition, [])] ⟨"f", 2, 0⟩
    Condition.ElseCondition (Condition.ElseCondition, []) rfl rfl).1

theorem modifyat_length {α : Type} (l : List α) (i : Nat) (f : α → α) :
    (modifyat l i f).length = l.length := by
  induction l generalizing i with
  | nil => simp [modifyat]
  | cons x rest ih =>
    cases i with
    | zero => simp [modifyat]
    | succ j => simp [modifyat, ih]

theorem modifyat_getelem_ne {α : Type} (l : List α) (i : Nat) (f : α → α) (k : Nat)
    (hk : k ≠ i) : (modifyat l i f)[k]? = l[k]? := by
  induction l generalizing i k with
  | nil => simp [modifyat]
  | cons x rest ih =>
    cases i with
    | zero =>
      cases k with
      | zero => exact absurd rfl hk
      | succ k2 => simp [modifyat]
    | succ j =>
      cases k with
      | zero => simp [modifyat]
      | succ k2 =>
        simp only [modifyat, List.getElem?_cons_succ]
        exact ih j k2 (by omega)

/-- C10: executing a Command statement with the context current rule unset
fails an internal assertion, not a user-facing definition error; with a
current rule set it only invokes that rule's command-attach operation,
leaving every other part of the model unchanged. -/
theorem c10_command (e : Expansion) (m : Makefile) (ctx : ExecContext) :
    (ctx.currule = none →
      execStmt (Statement.Command e) m ctx
          = Except.error (MakeError.AssertionError "context.currule is not None")
      ∧ ∀ msg loc, execStmt (Statement.Command e) m ctx
          ≠ Except.error (MakeError.DataError msg loc))
    ∧ (∀ r, ctx.currule = some r →
      execStmt (Statement.Command e) m ctx = Except.ok (addcommandcur r e m, ctx)
      ∧ (addcommandcur r e m).vars = m.vars
      ∧ (addcommandcur r e m).targets = m.targets
      ∧ (addcommandcur r e m).implicitrules = m.implicitrules
      ∧ (addcommandcur r e m).firstgoal = m.firstgoal
      ∧ (addcommandcur r e m).overrides = m.overrides
      ∧ (addcommandcur r e m).exportedvars = m.exportedvars
      ∧ (addcommandcur r e m).patternvariables = m.patternvariables
      ∧ (addcommandcur r e m).rulestore.length = m.rulestore.length
      ∧ (r = CurRule.DummyRule → addcommandcur r e m = m)
      ∧ (∀ j, r = CurRule.stored j → ∀ k, k ≠ j →
          (addcommandcur r e m).rulestore[k]? = m.rulestore[k]?)) := by
  constructor
  · intro h
    have hrun : execStmt (Statement.Command e) m ctx
        = Except.error (MakeError.AssertionError "context.currule is not None") := by
      simp [execStmt, h]
    exact ⟨hrun, fun msg loc hbad => by rw [hrun] at hbad; simp at hbad⟩
  · intro r h
    have hrun : execStmt (Statement.Command e) m ctx = Except.ok (addcommandcur r e m, ctx) := by
      simp [execStmt, h]
    refine ⟨hrun, ?_, ?_, ?_, ?_, ?_, ?_, ?_, ?_, ?_, ?_⟩
    · cases r <;> rfl
    · cases r <;> rfl
    · cases r <;> rfl
    · cases r <;> rfl
    · cases r <;> rfl
    · cases r <;> rfl
    · cases r <;> rfl
    · cases r with
      | DummyRule => rfl
      | stored i => simpa [addcommandcur] using modifyat_length m.rulestore i _
    · intro hd
      subst hd
      rfl
    · intro j hj k hk
      subst hj
      simpa [addcommandcur] using modifyat_getelem_ne m.rulestore j _ k hk

theorem c10_witness :
    execStmt (Statement.Command (Expansion.fromstring "cc")) testmakefile ⟨none⟩
      = Except.error (MakeError.AssertionError "context.currule is not None")
    ∧ execStmt (Statement.Command (Expansion.fromstring "cc")) testmakefile
        ⟨some CurRule.DummyRule⟩
      = Except.ok (addcommandcur CurRule.DummyRule (Expansion.fromstring "cc") testmakefile,
          ⟨some CurRule.DummyRule⟩) :=
  ⟨((c10_command (Expansion.fromstring "cc") testmakefile ⟨none⟩).1 rfl).1,
   ((c10_command (Expansion.fromstring "cc") testmakefile ⟨some CurRule.DummyRule⟩).2
      CurRule.DummyRule rfl).1⟩

theorem strlen_ne_zero (s : String) (h : s ≠ "") : s.length ≠ 0 := by
  intro h0
  apply h
  cases s with
  | mk data =>
    cases data with
    | nil => rfl
    | cons c cs => simp [String.length] at h0

theorem assoc_append_some {α : Type} (l1 l2 : List (String × α)) (k : String) (v : α)
    (h : assoc l1 k = some v) : assoc (l1 ++ l2) k = some v := by
  induction l1 with
  | nil => simp [assoc] at h
  | cons hd tl ih =>
    obtain ⟨k2, w⟩ := hd
    by_cases hk : k2 = k
    · simp [assoc, hk] at h ⊢
      exact h
    · simp [assoc, hk] at h ⊢
      exact ih h

theorem assoc_append_none {α : Type} (l1 l2 : List (String × α)) (k : String)
    (h : assoc l1 k = none) : assoc (l1 ++ l2) k = assoc l2 k := by
  induction l1 with
  | nil => simp [assoc]
  | cons hd tl ih =>
    obtain ⟨k2, w⟩ := hd
    by_cases hk : k2 = k
    · simp [assoc, hk] at h
    · simp [assoc, hk] at h ⊢
      exact ih h

theorem assoc_mapval {α : Type} (l : List (String × α)) (f : String → α → α) (k : String) :
    assoc (l.map (fun p => (p.1, f p.1 p.2))) k = (assoc l k).map (f k) := by
  induction l with
  | nil => rfl
  | cons hd tl ih =>
    obtain ⟨k2, v⟩ := hd
    by_cases hk : k2 = k
    · subst hk
      simp [assoc]
    · simp [assoc, hk, ih]

theorem update_shape1 {α : Type} (l : List (String × α)) (n : String) (f : α → α) :
    l.map (fun p => if p.1 = n then (p.1, f p.2) else p)
      = l.map (fun p => (p.1, if p.1 = n then f p.2 else p.2)) :=
  List.map_congr_left (fun p _ => by by_cases h : p.1 = n <;> simp [h])

theorem update_shape2 {α : Type} (l : List (String × α)) (n : String) (e : α) :
    l.map (fun p => if p.1 = n then (n, e) else p)
      = l.map (fun p => (p.1, if p.1 = n then e else p.2)) :=
  List.map_congr_left (fun p _ => by by_cases h : p.1 = n <;> simp [h])

theorem vget_vset_other (vars : Variables) (x n : String) (f : VarFlavor) (s : VarSource)
    (v : String) (hx : x ≠ n) : vget (vset vars x f s v) n = vget vars n := by
  unfold vset
  cases hg : vget vars x with
  | none =>
    show assoc (vars ++ [(x, ⟨f, s, v⟩)]) n = assoc vars n
    cases hn : assoc vars n with
    | some w => exact assoc_append_some vars _ n w hn
    | none =>
      rw [assoc_append_none vars _ n hn]
      simp [assoc, hx]
  | some old =>
    show assoc (if old.source.rank < s.rank then vars
      else vars.map (fun p => if p.1 = x then (x, (⟨f, s, v⟩ : VarEntry)) else p)) n
        = assoc vars n
    by_cases hr : old.source.rank < s.rank
    · rw [if_pos hr]
    · rw [if_neg hr, update_shape2,
        assoc_mapval vars (fun k2 w => if k2 = x then ⟨f, s, v⟩ else w) n]
      have hnx : ¬ n = x := fun h => hx h.symm
      simp [hnx]

theorem vget_vset_self_none (vars : Variables) (n : String) (f : VarFlavor) (s : VarSource)
    (v : String) (h : vget vars n = none) :
    vget (vset vars n f s v) n = some ⟨f, s, v⟩ := by
  show assoc _ n = _
  unfold vset
  rw [h, assoc_append_none vars _ n h]
  simp [assoc]

theorem readvar_simple (fuel : Nat) (vars : Variables) (n : String) (ent : VarEntry)
    (h : vget vars n = some ent) (hf : ent.flavor = VarFlavor.simple) :
    readvar fuel vars n = ent.value := by
  obtain ⟨fl, s, v⟩ := ent
  simp only at hf
  subst hf
  simp [readvar, resolveexp, resolveelem, h, String.join]

theorem readvar_recursive (fuel : Nat) (vars : Variables) (n : String) (ent : VarEntry)
    (h : vget vars n = some ent) (hf : ent.flavor = VarFlavor.recursive) :
    readvar (fuel + 1) vars n = resolveexp vars fuel (parsevalue ent.value) := by
  obtain ⟨fl, s, v⟩ := ent
  simp only at hf
  subst hf
  simp [readvar, resolveexp, resolveelem, h, String.join]

theorem execsetvariable_global (m : Makefile) (vne : Expansion) (token value : String)
    (vloc : Option Location) (src : VarSource) (fl : VarFlavor) (stored : String)
    (hne : (vne.resolve m.vars).length ≠ 0)
    (hcase : (token = "=" ∧ fl = VarFlavor.recursive ∧ stored = value)
           ∨ (token = ":=" ∧ fl = VarFlavor.simple ∧ stored = resolvestr m.vars value)) :
    execsetvariable m vne token value vloc none src
      = Except.ok {m with vars := vset m.vars (vne.resolve m.vars) fl src stored} := by
  rcases hcase with ⟨ht, hf, hs⟩ | ⟨ht, hf, hs⟩ <;>
    subst ht <;> subst hf <;> subst hs <;>
    simp [execsetvariable, hne, applysetop, ensurescope, getscope, setscope, List.foldlM]

/-- C2: executing SetVariable with operator simple-assign parses and
resolves the raw value text immediately against the current global scope
and stores the result as a simple-flavor plain string, which a later
change to another variable leaves untouched and which reads return as-is;
with operator recursive-assign it stores the raw text under the recursive
flavor and every read re-parses and re-resolves it against the
then-current scope, so a later change to a referenced variable is
observed on the next read. -/
theorem c2_setvariable_flavors (m : Makefile) (ctx : ExecContext) (vne : Expansion)
    (n raw : String) (src : VarSource) (vloc : Option Location)
    (hres : vne.resolve m.vars = n) (hne : n ≠ "") :
    (execStmt (Statement.SetVariable vne ":=" raw vloc none src) m ctx
      = Except.ok ({m with vars := vset m.vars n VarFlavor.simple src (resolvestr m.vars raw)},
          ctx))
    ∧ (execStmt (Statement.SetVariable vne "=" raw vloc none src) m ctx
      = Except.ok ({m with vars := vset m.vars n VarFlavor.recursive src raw}, ctx))
    ∧ (∀ vars (x : String) f s2 v, x ≠ n → vget (vset vars x f s2 v) n = vget vars n)
    ∧ (∀ vars f s2 v, vget vars n = none → vget (vset vars n f s2 v) n = some ⟨f, s2, v⟩)
    ∧ (∀ fuel vars ent, vget vars n = some ent → ent.flavor = VarFlavor.simple →
        readvar fuel vars n = ent.value)
    ∧ (∀ fuel vars ent, vget vars n = some ent → ent.flavor = VarFlavor.recursive →
        readvar (fuel + 1) vars n = resolveexp vars fuel (parsevalue ent.value)) := by
  have hlen : (vne.resolve m.vars).length ≠ 0 := by
    rw [hres]
    exact strlen_ne_zero n hne
  refine ⟨?_, ?_, ?_, ?_, ?_, ?_⟩
  · have h := execsetvariable_global m vne ":=" raw vloc src VarFlavor.simple
      (resolvestr m.vars raw) hlen (Or.inr ⟨rfl, rfl, rfl⟩)
    rw [hres] at h
    simp [execStmt, h]
  · have h := execsetvariable_global m vne "=" raw vloc src VarFlavor.recursive raw hlen
      (Or.inl ⟨rfl, rfl, rfl⟩)
    rw [hres] at h
    simp [execStmt, h]
  · exact fun vars x f s2 v hx => vget_vset_other vars x n f s2 v hx
  · exact fun vars f s2 v h => vget_vset_self_none vars n f s2 v h
  · exact fun fuel vars ent h hf => readvar_simple fuel vars n ent h hf
  · exact fun fuel vars ent h hf => readvar_recursive fuel vars n ent h hf

theorem c2_witness :
    (execStmt (Statement.SetVariable (Expansion.fromstring "Y") ":=" "$(X)" none none
        VarSource.makefile) xmakefile ⟨none⟩
      = Except.ok ({xmakefile with vars := (vset xmakefile.vars "Y" VarFlavor.simple
          VarSource.makefile (resolvestr xmakefile.vars "$(X)"))}, ⟨none⟩))
    ∧ (execStmt (Statement.SetVariable (Expansion.fromstring "Y") "=" "$(X)" none none
        VarSource.makefile) xmakefile ⟨none⟩
      = Except.ok ({xmakefile with vars := (vset xmakefile.vars "Y" VarFlavor.recursive
          VarSource.makefile "$(X)")}, ⟨none⟩))
    ∧ readvar 5 [("Y", ⟨VarFlavor.simple, VarSource.makefile, "1"⟩),
        ("X", ⟨VarFlavor.simple, VarSource.makefile, "2"⟩)] "Y" = "1"
    ∧ readvar 5 [("Y", ⟨VarFlavor.recursive, VarSource.makefile, "$(X)"⟩),
        ("X", ⟨VarFlavor.simple, VarSource.makefile, "2"⟩)] "Y" = "2" := by
  have h := c2_setvariable_flavors xmakefile ⟨none⟩ (Expansion.fromstring "Y") "Y" "$(X)"
    VarSource.makefile none rfl (by decide)
  refine ⟨h.1, h.2.1, ?_, ?_⟩
  · exact h.2.2.2.2.1 5 _ ⟨VarFlavor.simple, VarSource.makefile, "1"⟩ rfl rfl
  · exact (h.2.2.2.2.2 4 [("Y", ⟨VarFlavor.recursive, VarSource.makefile, "$(X)"⟩),
        ("X", ⟨VarFlavor.simple, VarSource.makefile, "2"⟩)]
        ⟨VarFlavor.recursive, VarSource.makefile, "$(X)"⟩ rfl rfl).trans (by decide)

theorem pclaaux_spec (args : List String) : ∀ i : Nat,
    ((pclaaux i args).1
      = (args.enumFrom i).flatMap (fun p =>
          (let q1 := partition p.2 ":="
           let q := if q1.2.1 = "" then partition p.2 "=" else q1
           if q.2.1 = "" then []
           else [Statement.Override p.2,
                 Statement.SetVariable (Expansion.fromstring (strip q.1)) q.2.1 q.2.2
                   (some ⟨"<command-line>", p.1, (strip q.1).length + q.2.1.length⟩) none
                   VarSource.commandline])))
    ∧ ((pclaaux i args).2
      = args.filter (fun a => (partition a ":=").2.1 = "" && (partition a "=").2.1 = "")) := by
  induction args with
  | nil => intro i; simp [pclaaux]
  | cons a rest ih =>
    intro i
    have ihi := ih (i + 1)
    by_cases h1 : (partition a ":=").2.1 = ""
    · by_cases h2 : (partition a "=").2.1 = ""
      · constructor
        · simp only [pclaaux, h1, if_pos, if_true, if_false, h2, ite_not, List.enumFrom_cons,
            List.flatMap_cons]
          simp [h1, h2, ihi.1]
        · simp only [pclaaux, h1, h2]
          simp [h1, h2, ihi.2]
      · constructor
        · simp only [pclaaux, List.enumFrom_cons, List.flatMap_cons]
          simp [h1, h2, ihi.1]
        · simp only [pclaaux]
          simp [h1, h2, ihi.2]
    · constructor
      · simp only [pclaaux, List.enumFrom_cons, List.flatMap_cons]
        simp [h1, ihi.1]
      · simp only [pclaaux]
        simp [h1, ihi.2]

/-- C8: parsecommandlineargs splits each argument first on the
colon-equals separator and only then on the equals separator; a split
argument yields, in order, an Override statement carrying the raw
argument and a SetVariable statement whose name is the trimmed left-hand
side, whose operator is the matched separator, whose value is the
right-hand side and whose source is command-line, with a synthetic
location built from the index and the name and separator lengths;
arguments with neither separator are returned unchanged, in order, in the
residual list, as on the concrete example. -/
theorem c8_parsecommandlineargs (args : List String) :
    ((parsecommandlineargs args).1
      = args.enum.flatMap (fun p =>
          (let q1 := partition p.2 ":="
           let q := if q1.2.1 = "" then partition p.2 "=" else q1
           if q.2.1 = "" then []
           else [Statement.Override p.2,
                 Statement.SetVariable (Expansion.fromstring (strip q.1)) q.2.1 q.2.2
                   (some ⟨"<command-line>", p.1, (strip q.1).length + q.2.1.length⟩) none
                   VarSource.commandline])))
    ∧ ((parsecommandlineargs args).2
      = args.filter (fun a => (partition a ":=").2.1 = "" && (partition a "=").2.1 = ""))
    ∧ parsecommandlineargs ["CC=gcc", "all"]
      = ([Statement.Override "CC=gcc",
          Statement.SetVariable (Expansion.fromstring "CC") "=" "gcc"
            (some ⟨"<command-line>", 0, 3⟩) none VarSource.commandline],
         ["all"]) := by
  refine ⟨?_, (pclaaux_spec args 0).2, rfl⟩
  have h := (pclaaux_spec args 0).1
  rw [parsecommandlineargs, h]
  rfl


theorem any_map_general {α β : Type} (f : α → β) (l : List α) (p : β → Bool) :
    (l.map f).any p = l.any (fun a => p (f a)) := by
  induction l with
  | nil => rfl
  | cons a as ih => simp [List.any_cons, ih]

theorem assoc_addruletotarget (m : Makefile) (n : String) (tr : TargetRule) (k : String) :
    lookuptarget (addruletotarget m n tr) k
      = if k = n then
          some (match lookuptarget m n with
                | some e => (⟨e.rules ++ [tr], e.vars⟩ : TargetEntry)
                | none => ⟨[tr], []⟩)
        else lookuptarget m k := by
  unfold addruletotarget lookuptarget
  cases h : assoc m.targets n with
  | some e =>
    show assoc (m.targets.map
        (fun p => if p.1 = n then (p.1, (⟨p.2.rules ++ [tr], p.2.vars⟩ : TargetEntry)) else p)) k
      = _
    rw [update_shape1 m.targets n (fun v => (⟨v.rules ++ [tr], v.vars⟩ : TargetEntry)),
      assoc_mapval m.targets
        (fun k2 v => if k2 = n then (⟨v.rules ++ [tr], v.vars⟩ : TargetEntry) else v) k]
    by_cases hk : k = n
    · subst hk
      rw [h]
      simp
    · simp [hk]
  | none =>
    show assoc (m.targets ++ [(n, ⟨[tr], []⟩)]) k = _
    by_cases hk : k = n
    · subst hk
      rw [assoc_append_none m.targets _ k h]
      simp [assoc]
    · cases h2 : assoc m.targets k with
      | some e2 =>
        rw [assoc_append_some m.targets _ k e2 h2]
        simp [hk, h2]
      | none =>
        rw [assoc_append_none m.targets _ k h2]
        simp [assoc, hk, h2, Ne.symm hk]

theorem targethasrule_addself (m : Makefile) (n : String) (tr : TargetRule) :
    targethasrule (addruletotarget m n tr) n tr := by
  unfold targethasrule
  rw [assoc_addruletotarget m n tr n, if_pos rfl]
  refine ⟨_, rfl, ?_⟩
  cases h : lookuptarget m n <;> simp

theorem targethasrule_mono (m : Makefile) (n : String) (tr : TargetRule) (n2 : String)
    (tr2 : TargetRule) (h : targethasrule m n tr) :
    targethasrule (addruletotarget m n2 tr2) n tr := by
  obtain ⟨e, he, hm⟩ := h
  unfold targethasrule
  rw [assoc_addruletotarget m n2 tr2 n]
  by_cases hk : n = n2
  · subst hk
    rw [if_pos rfl, he]
    exact ⟨_, rfl, by simp [hm]⟩
  · rw [if_neg hk]
    exact ⟨e, he, hm⟩

theorem addruletotarget_frame (m : Makefile) (n : String) (tr : TargetRule) :
    (addruletotarget m n tr).vars = m.vars
    ∧ (addruletotarget m n tr).rulestore = m.rulestore
    ∧ (addruletotarget m n tr).implicitrules = m.implicitrules
    ∧ (addruletotarget m n tr).firstgoal = m.firstgoal := by
  unfold addruletotarget
  cases h : lookuptarget m n <;> exact ⟨rfl, rfl, rfl, rfl⟩

theorem targethasrule_foldl (tr : TargetRule) : ∀ (ws : List String) (m : Makefile),
    (∀ n0 tr0, targethasrule m n0 tr0 →
      targethasrule (ws.foldl (fun acc w => addruletotarget acc w tr) m) n0 tr0)
    ∧ (∀ w ∈ ws, targethasrule (ws.foldl (fun acc w => addruletotarget acc w tr) m) w tr) := by
  intro ws
  induction ws with
  | nil => intro m; exact ⟨fun _ _ h => h, by simp⟩
  | cons w rest ih =>
    intro m
    constructor
    · intro n0 tr0 h
      simp only [List.foldl_cons]
      exact (ih (addruletotarget m w tr)).1 n0 tr0 (targethasrule_mono m n0 tr0 w tr h)
    · intro w2 hw2
      simp only [List.foldl_cons]
      rcases List.mem_cons.mp hw2 with h | h
      · subst h
        exact (ih _).1 w2 tr (targethasrule_addself m w2 tr)
      · exact (ih _).2 w2 h

theorem foldl_addruletotarget_frame (tr : TargetRule) : ∀ (ws : List String) (m : Makefile),
    ((ws.foldl (fun acc w => addruletotarget acc w tr) m).rulestore = m.rulestore)
    ∧ ((ws.foldl (fun acc w => addruletotarget acc w tr) m).implicitrules = m.implicitrules)
    ∧ ((ws.foldl (fun acc w => addruletotarget acc w tr) m).firstgoal = m.firstgoal) := by
  intro ws
  induction ws with
  | nil => intro m; exact ⟨rfl, rfl, rfl⟩
  | cons w rest ih =>
    intro m
    simp only [List.foldl_cons]
    obtain ⟨h1, h2, h3⟩ := ih (addruletotarget m w tr)
    obtain ⟨_, g1, g2, g3⟩ := addruletotarget_frame m w tr
    exact ⟨h1.trans g1, h2.trans g2, h3.trans g3⟩

theorem foundtarget_facts (m : Makefile) (g : String) :
    (foundtarget m g).firstgoal = some (m.firstgoal.getD g)
    ∧ (foundtarget m g).targets = m.targets
    ∧ (foundtarget m g).rulestore = m.rulestore
    ∧ (foundtarget m g).implicitrules = m.implicitrules := by
  unfold foundtarget
  cases h : m.firstgoal <;> simp [h]

theorem targethasrule_foundtarget (m : Makefile) (g : String) (n : String) (tr : TargetRule)
    (h : targethasrule m n tr) : targethasrule (foundtarget m g) n tr := by
  obtain ⟨e, he, hm⟩ := h
  refine ⟨e, ?_, hm⟩
  unfold foundtarget
  cases m.firstgoal <;> exact he

/-- C3: a Rule statement whose resolved, wildcard-expanded target list is
all patterns registers exactly one pattern rule in the implicit-rule
sequence, creates no target-table entry, and sets the current rule to it;
a list of all explicit targets attaches one shared rule object to every
named target table entry (created on demand), records the first target as
the discovered goal when none is recorded yet, and sets the current rule
to the new rule. -/
theorem c3_rule_execute (m : Makefile) (ctx : ExecContext) (te de : Expansion) (dc : Bool)
    (t0 : String) (rest : List String)
    (hl : expandwildcards m (splitwords (te.resolve m.vars)) = t0 :: rest) :
    ((∀ w ∈ t0 :: rest, (Pattern.mk w).ispattern = true) →
      execStmt (Statement.Rule te de dc) m ctx
        = Except.ok
            ({m with
              rulestore := m.rulestore ++ [(StoredRule.patt
                ⟨(t0 :: rest).map Pattern.mk,
                 (expandwildcards m (splitwords (de.resolve m.vars))).map Pattern.mk,
                 dc, te.loc, []⟩)],
              implicitrules := m.implicitrules ++ [m.rulestore.length]},
             {ctx with currule := some (CurRule.stored m.rulestore.length)}))
    ∧ ((∀ w ∈ t0 :: rest, (Pattern.mk w).ispattern = false) →
      ∃ m3, execStmt (Statement.Rule te de dc) m ctx
              = Except.ok (m3, {ctx with currule := some (CurRule.stored m.rulestore.length)})
        ∧ (∀ w ∈ t0 :: rest, targethasrule m3 w (TargetRule.stored m.rulestore.length))
        ∧ m3.firstgoal = some (m.firstgoal.getD t0)
        ∧ m3.implicitrules = m.implicitrules
        ∧ m3.rulestore = m.rulestore
            ++ [(StoredRule.normal
                ⟨expandwildcards m (splitwords (de.resolve m.vars)), dc, te.loc, []⟩)]) := by
  have hexec : execStmt (Statement.Rule te de dc) m ctx = execrulestmt m ctx te de dc := by
    simp [execStmt]
  constructor
  · intro hall
    have hpat0 : (Pattern.mk t0).ispattern = true := hall t0 (List.mem_cons_self _ _)
    have hanyT : ((List.map Pattern.mk (t0 :: rest)).any (fun t => t.ispattern)) = true := by
      rw [any_map_general]
      exact List.any_eq_true.mpr ⟨t0, List.mem_cons_self _ _, hpat0⟩
    have hanyF : ((List.map Pattern.mk (t0 :: rest)).any (fun t => !t.ispattern)) = false := by
      rw [any_map_general]
      refine List.any_eq_false.mpr ?_
      intro w hw
      simp [hall w hw]
    rw [hexec]
    simp only [execrulestmt, hl]
    rw [List.map_cons] at hanyT hanyF
    simp only [List.map_cons, hanyT, hanyF, Bool.and_false, Bool.false_eq_true, if_false,
      hpat0, if_true]
  · intro hall
    have hpat0 : (Pattern.mk t0).ispattern = false := hall t0 (List.mem_cons_self _ _)
    have hanyT : ((List.map Pattern.mk (t0 :: rest)).any (fun t => t.ispattern)) = false := by
      rw [any_map_general]
      refine List.any_eq_false.mpr ?_
      intro w hw
      simp [hall w hw]
    have hfold : ∀ (mm : Makefile),
        (List.map Pattern.mk (t0 :: rest)).foldl
          (fun acc t => addruletotarget acc t.gettarget (TargetRule.stored m.rulestore.length))
          mm
        = (t0 :: rest).foldl
          (fun acc w => addruletotarget acc w (TargetRule.stored m.rulestore.length)) mm := by
      intro mm
      rw [List.foldl_map]
      rfl
    rw [hexec]
    simp only [execrulestmt, hl]
    rw [List.map_cons] at hanyT hfold
    simp only [List.map_cons, hanyT, Bool.false_and, Bool.false_eq_true, if_false, hpat0]
    rw [hfold]
    refine ⟨_, rfl, ?_, ?_, ?_, ?_⟩
    · intro w hw
      exact targethasrule_foundtarget _ _ w _
        ((targethasrule_foldl (TargetRule.stored m.rulestore.length) (t0 :: rest) _).2 w hw)
    · rw [(foundtarget_facts _ _).1,
        (foldl_addruletotarget_frame (TargetRule.stored m.rulestore.length) (t0 :: rest) _).2.2]
      rfl
    · rw [(foundtarget_facts _ _).2.2.2,
        (foldl_addruletotarget_frame (TargetRule.stored m.rulestore.length) (t0 :: rest) _).2.1]
    · rw [(foundtarget_facts _ _).2.2.1,
        (foldl_addruletotarget_frame (TargetRule.stored m.rulestore.length) (t0 :: rest) _).1]

theorem c3_witness :
    (execStmt (Statement.Rule (Expansion.fromstring "%.o") (Expansion.fromstring "%.c") false)
        testmakefile ⟨none⟩
      = Except.ok
          ({testmakefile with
            rulestore := [(StoredRule.patt
              ⟨[Pattern.mk "%.o"], [Pattern.mk "%.c"], false, none, []⟩)],
            implicitrules := [0]},
           ⟨some (CurRule.stored 0)⟩))
    ∧ (∃ m3, execStmt (Statement.Rule (Expansion.fromstring "a.o b.o")
          (Expansion.fromstring "") false) testmakefile ⟨none⟩
        = Except.ok (m3, ⟨some (CurRule.stored 0)⟩)
      ∧ targethasrule m3 "a.o" (TargetRule.stored 0)
      ∧ targethasrule m3 "b.o" (TargetRule.stored 0)
      ∧ m3.firstgoal = some "a.o") := by
  constructor
  · exact (c3_rule_execute testmakefile ⟨none⟩ (Expansion.fromstring "%.o")
      (Expansion.fromstring "%.c") false "%.o" [] (by decide)).1 (by decide)
  · obtain ⟨m3, hok, hmem, hfg, _, _⟩ := (c3_rule_execute testmakefile ⟨none⟩
      (Expansion.fromstring "a.o b.o") (Expansion.fromstring "") false "a.o" ["b.o"]
      (by decide)).2 (by decide)
    exact ⟨m3, hok, hmem "a.o" (by simp), hmem "b.o" (by simp), hfg⟩

/-- C4: a Rule statement whose resolved, wildcard-expanded target list
contains both a pattern word and a non-pattern word fails with a
definition error carrying the target expansion location; the error return
leaves the model untouched. -/
theorem c4_rule_mixed (m : Makefile) (ctx : ExecContext) (te de : Expansion) (dc : Bool)
    (l : List String) (hl : expandwildcards m (splitwords (te.resolve m.vars)) = l)
    (hp : ∃ w ∈ l, (Pattern.mk w).ispattern = true)
    (hn : ∃ w ∈ l, (Pattern.mk w).ispattern = false) :
    execStmt (Statement.Rule te de dc) m ctx
      = Except.error (MakeError.DataError "Mixed implicit and normal rule" te.loc) := by
  cases l with
  | nil =>
    obtain ⟨w, hw, _⟩ := hp
    simp at hw
  | cons t0 rest =>
    have hexec : execStmt (Statement.Rule te de dc) m ctx = execrulestmt m ctx te de dc := by
      simp [execStmt]
    have hanyT : ((List.map Pattern.mk (t0 :: rest)).any (fun t => t.ispattern)) = true := by
      rw [any_map_general]
      obtain ⟨w, hw, hpw⟩ := hp
      exact List.any_eq_true.mpr ⟨w, hw, hpw⟩
    have hanyF : ((List.map Pattern.mk (t0 :: rest)).any (fun t => !t.ispattern)) = true := by
      rw [any_map_general]
      obtain ⟨w, hw, hnw⟩ := hn
      exact List.any_eq_true.mpr ⟨w, hw, by simp [hnw]⟩
    rw [hexec]
    simp only [execrulestmt, hl]
    rw [List.map_cons] at hanyT hanyF
    simp only [List.map_cons, hanyT, hanyF, Bool.and_self, if_true]

theorem c4_witness :
    execStmt (Statement.Rule (Expansion.fromstring "%.o b.c") (Expansion.fromstring "") false)
        testmakefile ⟨none⟩
      = Except.error (MakeError.DataError "Mixed implicit and normal rule" none) :=
  c4_rule_mixed testmakefile ⟨none⟩ (Expansion.fromstring "%.o b.c") (Expansion.fromstring "")
    false ["%.o", "b.c"] (by decide) ⟨"%.o", by simp, by decide⟩ ⟨"b.c", by simp, by decide⟩

theorem attachspr_ok (prloc : Option Location) (i : Nat) (pat : Pattern) :
    ∀ (ws : List String) (m : Makefile),
    (∀ t ∈ ws, (Pattern.mk t).ispattern = false) →
    (∀ t ∈ ws, pat.matchstem t ≠ none) →
    ∃ m2, attachspr m prloc i pat ws = Except.ok m2
      ∧ (∀ t ∈ ws, ∀ st, pat.matchstem t = some st →
          targethasrule m2 t (TargetRule.inst i "" st pat.ismatchany))
      ∧ (∀ n tr, targethasrule m n tr → targethasrule m2 n tr)
      ∧ m2.rulestore = m.rulestore
      ∧ m2.implicitrules = m.implicitrules
      ∧ m2.firstgoal = m.firstgoal := by
  intro ws
  induction ws with
  | nil =>
    intro m _ _
    exact ⟨m, rfl, by simp, fun _ _ h => h, rfl, rfl, rfl⟩
  | cons t ts ih =>
    intro m hnp hmt
    have hnp0 : (Pattern.mk t).ispattern = false := hnp t (List.mem_cons_self _ _)
    obtain ⟨st, hst⟩ : ∃ st, pat.matchstem t = some st := by
      cases h : pat.matchstem t with
      | none => exact absurd h (hmt t (List.mem_cons_self _ _))
      | some st => exact ⟨st, rfl⟩
    obtain ⟨m2, hrun, hatt, hpres, hrs, hir, hfg⟩ :=
      ih (addruletotarget m t (TargetRule.inst i "" st pat.ismatchany))
        (fun t2 h2 => hnp t2 (List.mem_cons_of_mem t h2))
        (fun t2 h2 => hmt t2 (List.mem_cons_of_mem t h2))
    refine ⟨m2, ?_, ?_, ?_, ?_, ?_, ?_⟩
    · show attachspr m prloc i pat (t :: ts) = Except.ok m2
      unfold attachspr
      simp [hnp0, hst, hrun]
    · intro t2 ht2 st2 hst2
      rcases List.mem_cons.mp ht2 with h | h
      · subst h
        have hs2 : st2 = st := by
          rw [hst] at hst2
          exact (Option.some.inj hst2).symm
        subst hs2
        exact hpres _ _ (targethasrule_addself m t2 _)
      · exact hatt t2 h st2 hst2
    · intro n tr h
      exact hpres n tr (targethasrule_mono m n tr t _ h)
    · rw [hrs]
      exact (addruletotarget_frame m t _).2.1
    · rw [hir]
      exact (addruletotarget_frame m t _).2.2.1
    · rw [hfg]
      exact (addruletotarget_frame m t _).2.2.2

theorem attachspr_fail (prloc : Option Location) (i : Nat) (pat : Pattern) :
    ∀ (ws : List String) (m : Makefile),
    (∀ t ∈ ws, (Pattern.mk t).ispattern = false) →
    (∃ t ∈ ws, pat.matchstem t = none) →
    ∃ t, t ∈ ws ∧ pat.matchstem t = none
      ∧ attachspr m prloc i pat ws
          = Except.error (MakeError.DataError
              ("Target " ++ squote ++ t ++ squote ++ " does not match the static pattern "
                ++ squote ++ pat.tostr ++ squote) prloc) := by
  intro ws
  induction ws with
  | nil =>
    intro m _ hex
    obtain ⟨t, ht, _⟩ := hex
    simp at ht
  | cons t ts ih =>
    intro m hnp hex
    have hnp0 : (Pattern.mk t).ispattern = false := hnp t (List.mem_cons_self _ _)
    cases hst : pat.matchstem t with
    | none =>
      refine ⟨t, List.mem_cons_self _ _, hst, ?_⟩
      unfold attachspr
      simp [hnp0, hst]
    | some st =>
      have hex2 : ∃ t2 ∈ ts, pat.matchstem t2 = none := by
        obtain ⟨t2, ht2, h2⟩ := hex
        rcases List.mem_cons.mp ht2 with h | h
        · subst h
          rw [hst] at h2
          exact absurd h2 (by simp)
        · exact ⟨t2, h, h2⟩
      obtain ⟨t2, ht2, h2, hrun⟩ :=
        ih (addruletotarget m t (TargetRule.inst i "" st pat.ismatchany))
          (fun t3 h3 => hnp t3 (List.mem_cons_of_mem t h3)) hex2
      refine ⟨t2, List.mem_cons_of_mem t ht2, h2, ?_⟩
      unfold attachspr
      simp [hnp0, hst, hrun]

/-- C5: a StaticPatternRule whose pattern expansion resolves to one word
attaches, for every explicit target matching the pattern, a pattern-rule
instance carrying the extracted stem to that target table entry; when
some target does not match the pattern, execution fails with a definition
error naming the target and the pattern. -/
theorem c5_staticpatternrule (m : Makefile) (ctx : ExecContext) (te pe de : Expansion)
    (dc : Bool) (t0 : String) (rest : List String) (p : String)
    (hl : expandwildcards m (splitwords (te.resolve m.vars)) = t0 :: rest)
    (hp : splitwords (pe.resolve m.vars) = [p])
    (hnp : ∀ t ∈ t0 :: rest, (Pattern.mk t).ispattern = false) :
    ((∀ t ∈ t0 :: rest, (Pattern.mk p).matchstem t ≠ none) →
      ∃ m3, execStmt (Statement.StaticPatternRule te pe de dc) m ctx
              = Except.ok (m3, {ctx with currule := some (CurRule.stored m.rulestore.length)})
        ∧ (∀ t ∈ t0 :: rest, ∀ st, (Pattern.mk p).matchstem t = some st →
            targethasrule m3 t
              (TargetRule.inst m.rulestore.length "" st (Pattern.mk p).ismatchany)))
    ∧ ((∃ t ∈ t0 :: rest, (Pattern.mk p).matchstem t = none) →
      ∃ t, t ∈ t0 :: rest ∧ (Pattern.mk p).matchstem t = none
        ∧ execStmt (Statement.StaticPatternRule te pe de dc) m ctx
            = Except.error (MakeError.DataError
                ("Target " ++ squote ++ t ++ squote ++ " does not match the static pattern "
                  ++ squote ++ p ++ squote) te.loc)) := by
  have hexec : execStmt (Statement.StaticPatternRule te pe de dc) m ctx
      = execstaticpattern m ctx te pe de dc := by
    simp [execStmt]
  constructor
  · intro hmt
    obtain ⟨m2, hrun, hatt, _, _, _, _⟩ := attachspr_ok te.loc m.rulestore.length
      (Pattern.mk p) (t0 :: rest)
      {m with
       rulestore := m.rulestore ++ [(StoredRule.patt
         ⟨[Pattern.mk p],
          (expandwildcards m (splitwords (de.resolve m.vars))).map Pattern.mk,
          dc, te.loc, []⟩)]}
      hnp hmt
    refine ⟨foundtarget m2 t0, ?_, ?_⟩
    · rw [hexec]
      simp only [execstaticpattern, hl, hp]
      rw [hrun]
    · intro t ht st hst
      exact targethasrule_foundtarget _ t0 t _ (hatt t ht st hst)
  · intro hex
    obtain ⟨t, ht, hnone, hrun⟩ := attachspr_fail te.loc m.rulestore.length
      (Pattern.mk p) (t0 :: rest)
      {m with
       rulestore := m.rulestore ++ [(StoredRule.patt
         ⟨[Pattern.mk p],
          (expandwildcards m (splitwords (de.resolve m.vars))).map Pattern.mk,
          dc, te.loc, []⟩)]}
      hnp hex
    refine ⟨t, ht, hnone, ?_⟩
    rw [hexec]
    simp only [execstaticpattern, hl, hp]
    rw [hrun]
    rfl

theorem c5_witness :
    (∃ m3, execStmt (Statement.StaticPatternRule (Expansion.fromstring "a.o")
        (Expansion.fromstring "%.o") (Expansion.fromstring "%.c") false) testmakefile ⟨none⟩
      = Except.ok (m3, ⟨some (CurRule.stored 0)⟩)
      ∧ targethasrule m3 "a.o" (TargetRule.inst 0 "" "a" false))
    ∧ (∃ t, t ∈ ["a.x"] ∧ (Pattern.mk "%.o").matchstem t = none
      ∧ execStmt (Statement.StaticPatternRule (Expansion.fromstring "a.x")
          (Expansion.fromstring "%.o") (Expansion.fromstring "%.c") false) testmakefile ⟨none⟩
        = Except.error (MakeError.DataError
            ("Target " ++ squote ++ t ++ squote ++ " does not match the static pattern "
              ++ squote ++ "%.o" ++ squote) none)) := by
  constructor
  · obtain ⟨m3, hok, hatt⟩ := (c5_staticpatternrule testmakefile ⟨none⟩
      (Expansion.fromstring "a.o") (Expansion.fromstring "%.o") (Expansion.fromstring "%.c")
      false "a.o" [] "%.o" (by decide) (by decide) (by decide)).1 (by decide)
    exact ⟨m3, hok, hatt "a.o" (by simp) "a" (by decide)⟩
  · exact (c5_staticpatternrule testmakefile ⟨none⟩
      (Expansion.fromstring "a.x") (Expansion.fromstring "%.o") (Expansion.fromstring "%.c")
      false "a.x" [] "%.o" (by decide) (by decide) (by decide)).2 ⟨"a.x", by simp, by decide⟩
